import Mathlib

/-!
Shallow embedding of the StoryTree `setup.py` provisioning script.

Filesystem entries are modelled abstractly: a directory maps names to
entries, an entry is a symlink (with a flag recording whether it resolves
to an existing target), a directory, or a regular file with a byte size, a
readability flag (whether `read_text()` succeeds without `OSError` or
`UnicodeDecodeError`) and its textual content.
-/

namespace StoryTree

/-- A filesystem entry as observed by `setup.py`:
a real symlink (`resolves` records whether `item.resolve().exists()`
succeeds and is true; an `OSError` during resolution is folded into
`resolves = false`, as the code treats both as broken), a directory, or a
regular file with its `stat().st_size`, whether `read_text()` succeeds,
and its decoded content. -/
inductive Entry where
  | symlink (resolves : Bool)
  | dir
  | file (size : Nat) (readable : Bool) (content : String)
deriving DecidableEq

/-- Whether the character list `p` occurs at the start of `l`. -/
def beginsWithChars : List Char → List Char → Bool
  | [], _ => true
  | _ :: _, [] => false
  | p :: ps, c :: cs => p == c && beginsWithChars ps cs

/-- Whether the character list `p` occurs contiguously inside `l`
(the meaning of Python's `p in l` on strings). -/
def hasSubChars (pat : List Char) : List Char → Bool
  | [] => beginsWithChars pat []
  | c :: cs => beginsWithChars pat (c :: cs) || hasSubChars pat cs

/-- Python's substring test `pat in s`. -/
def containsSub (s pat : String) : Bool :=
  hasSubChars pat.data s.data

/-- ASCII whitespace, the characters Python's `str.strip()` removes in the
strings this script handles. -/
def isWs (c : Char) : Bool :=
  c == ' ' || c == '\t' || c == '\n' || c == '\r'

/-- Python's `str.strip()`: drop whitespace from both ends (ASCII model,
adequate for the config values and file contents involved). -/
def stripStr (s : String) : String :=
  ⟨((s.data.dropWhile isWs).reverse.dropWhile isWs).reverse⟩

/-- Python's `str.lower()` (ASCII model, adequate for the values involved:
`"true"`, `"TRUE"`, environment flags). -/
def toLowerStr (s : String) : String :=
  ⟨s.data.map Char.toLower⟩

/-- Embedding of `is_broken_symlink_file` (setup.py:202-234).
`none` models a path that does not exist. A path that exists and is a real
symlink, or a directory, is never a broken-symlink text file; a regular
file is one exactly when it is at most 200 bytes, its text can be read,
and the stripped content contains `.StoryTree/` or `../`. Exceptions while
reading (`OSError`, `UnicodeDecodeError`) are swallowed and yield `false`. -/
def is_broken_symlink_file : Option Entry → Bool
  | none => false
  | some (Entry.symlink _) => false
  | some Entry.dir => false
  | some (Entry.file size readable content) =>
    if size > 200 then false
    else if readable then
      containsSub (stripStr content) ".StoryTree/" ||
        containsSub (stripStr content) "../"
    else false

/-- The state `diagnose_symlinks_detailed` assigns to one destination item
(the body of the loop at setup.py:631-647): real symlinks are `valid` or
`broken` by whether they resolve; otherwise a broken-symlink text file is a
`textFile`; otherwise a name the source also defines is `extra`; anything
else is left unclassified (`ignored`). -/
inductive ItemState where
  | valid
  | broken
  | textFile
  | extra
  | ignored
deriving DecidableEq

/-- Classification of one destination item named `name` with entry `e`,
given the expected source names of the category (setup.py:631-647). -/
def classifyItem (expected : List String) (name : String) (e : Entry) : ItemState :=
  match e with
  | Entry.symlink r => if r then ItemState.valid else ItemState.broken
  | _ =>
    if is_broken_symlink_file (some e) then ItemState.textFile
    else if expected.contains name then ItemState.extra
    else ItemState.ignored

/-- The five per-category name lists returned by `diagnose_symlinks_detailed`
for one category (setup.py:609-652). -/
structure CategoryResult where
  valid : List String
  broken : List String
  text_files : List String
  missing : List String
  extra : List String
deriving DecidableEq

/-- Embedding of one category of `diagnose_symlinks_detailed`
(setup.py:608-652). `expected` is the filtered source-name set
(`{item.name for item in src_dir.iterdir() if filter_fn(item)}`, empty when
the source directory is absent); `dest = none` models a missing destination
directory, in which case every expected name is missing; otherwise each
destination item is classified in iteration order and
`missing = expected - present`. -/
def diagnoseCategory (expected : List String) (dest : Option (List (String × Entry))) :
    CategoryResult :=
  match dest with
  | none => ⟨[], [], [], expected, []⟩
  | some items =>
    let valid :=
      (items.filter (fun p => classifyItem expected p.1 p.2 == ItemState.valid)).map
        (fun p => p.1)
    let broken :=
      (items.filter (fun p => classifyItem expected p.1 p.2 == ItemState.broken)).map
        (fun p => p.1)
    let text_files :=
      (items.filter (fun p => classifyItem expected p.1 p.2 == ItemState.textFile)).map
        (fun p => p.1)
    let extra :=
      (items.filter (fun p => classifyItem expected p.1 p.2 == ItemState.extra)).map
        (fun p => p.1)
    let present := valid ++ broken ++ text_files ++ extra
    let missing := expected.filter (fun n => !(present.contains n))
    ⟨valid, broken, text_files, missing, extra⟩

/-- How many of the five per-category sets contain the name `n`. -/
def inCount (r : CategoryResult) (n : String) : Nat :=
  (if n ∈ r.valid then 1 else 0) + (if n ∈ r.broken then 1 else 0) +
    (if n ∈ r.text_files then 1 else 0) + (if n ∈ r.missing then 1 else 0) +
    (if n ∈ r.extra then 1 else 0)

/-- Python truthiness of `os.environ.get(KEY)`: `None` (variable unset) and
the empty string are falsy, every other string is truthy. -/
def envTruthy : Option String → Bool
  | none => false
  | some s => !(s == "")

/-- Embedding of `is_ci_mode` (setup.py:39-49). Inputs: the `--ci` flag,
the value of the `CI` environment variable, `platform.system()`, and the
value of the `FORCE_SYMLINKS` environment variable. -/
def is_ci_mode (force_ci : Bool) (ciVar : Option String) (platformSystem : String)
    (forceSymlinksVar : Option String) : Bool :=
  if force_ci then true
  else if toLowerStr (ciVar.getD "") == "true" then true
  else if platformSystem == "Linux" && !(envTruthy forceSymlinksVar) then true
  else false

/-- The provisioning mode of the spec. -/
inductive ProvisioningMode where
  | copy
  | symlink
deriving DecidableEq

/-- The mode actually used by `cmd_install`
(`use_symlinks = not is_ci_mode(args.ci)`, setup.py:452). -/
def detectMode (force_ci : Bool) (ciVar : Option String) (platformSystem : String)
    (forceSymlinksVar : Option String) : ProvisioningMode :=
  if is_ci_mode force_ci ciVar platformSystem forceSymlinksVar then ProvisioningMode.copy
  else ProvisioningMode.symlink

/-- The spec's "environment signal indicating a continuous-integration
context is present": the `CI` variable lowercases to `"true"`. -/
def ciSignal (ciVar : Option String) : Bool :=
  toLowerStr (ciVar.getD "") == "true"

/-- Modelled from the spec: the Environment Detector's resolution order
(spec 4.1), first match wins: explicit flag, then the CI environment
signal, then Linux without an override-to-symlinks signal, else symlink. -/
def detectModeSpecModel (force_ci : Bool) (ciVar : Option String) (platformSystem : String)
    (forceSymlinksVar : Option String) : ProvisioningMode :=
  if force_ci then ProvisioningMode.copy
  else if ciSignal ciVar then ProvisioningMode.copy
  else if platformSystem == "Linux" && !(envTruthy forceSymlinksVar) then ProvisioningMode.copy
  else ProvisioningMode.symlink

/-- The observable git-side state a reconciliation run interacts with:
whether the target has a `.git` entry, whether the `git` executable can be
found, and the repository-local configuration as an association list of
raw key/value pairs. -/
structure GitState where
  isRepo : Bool
  gitFound : Bool
  config : List (String × String)
deriving DecidableEq

/-- The raw locally-stored value of a config key, `none` when unset. -/
def getRaw (cfg : List (String × String)) (key : String) : Option String :=
  (cfg.find? (fun p => p.1 == key)).map (fun p => p.2)

/-- What `result.stdout.strip().lower()` yields after
`git config --local --get key`: the stored value stripped and lowercased,
or the empty string when the key is unset (git then prints nothing). -/
def readLocal (cfg : List (String × String)) (key : String) : String :=
  toLowerStr (stripStr ((getRaw cfg key).getD ""))

/-- Effect of `git config --local key value`: the key now has exactly this
value. -/
def setLocal (cfg : List (String × String)) (key value : String) :
    List (String × String) :=
  (cfg.filter (fun p => !(p.1 == key))) ++ [(key, value)]

/-- Embedding of `configure_git_for_symlinks` (setup.py:84-120): no-op
returning `false` when the target is not a git repository or git is not
found; no-op returning `false` when the read value is already `"true"`;
otherwise sets `core.symlinks` to `"true"` and returns `true`. -/
def configure_git_for_symlinks (st : GitState) : GitState × Bool :=
  if !st.isRepo then (st, false)
  else if !st.gitFound then (st, false)
  else if readLocal st.config "core.symlinks" == "true" then (st, false)
  else ({ st with config := setLocal st.config "core.symlinks" "true" }, true)

/-- Embedding of `configure_submodule_recurse` (setup.py:123-152), the same
read-compare-set pattern for `submodule.recurse`. -/
def configure_submodule_recurse (st : GitState) : GitState × Bool :=
  if !st.isRepo then (st, false)
  else if !st.gitFound then (st, false)
  else if readLocal st.config "submodule.recurse" == "true" then (st, false)
  else ({ st with config := setLocal st.config "submodule.recurse" "true" }, true)

/-- The reconciliation step of `cmd_install` (setup.py:480-481): configure
`core.symlinks`, then `submodule.recurse` on the resulting state; returns
the final state with the two change flags. -/
def reconcile (st : GitState) : GitState × Bool × Bool :=
  let s := configure_git_for_symlinks st
  let r := configure_submodule_recurse s.1
  (r.1, s.2, r.2)

/-- One entry of the dependents registry (`{"name": ..., "path": ...}`). -/
structure Dependent where
  name : String
  path : String
deriving DecidableEq

/-- Embedding of `load_dependents` (setup.py:62-68): the registry file
content when it exists, the empty list when it does not. -/
def load_dependents : Option (List Dependent) → List Dependent
  | none => []
  | some l => l

/-- Embedding of `cmd_register` (setup.py:789-819) on the registry state:
if some entry already has path `p`, return unchanged (the code prints
"Already registered" and returns without saving); otherwise append
`{name := n, path := p}`. -/
def register (deps : List Dependent) (p n : String) : List Dependent :=
  if deps.any (fun d => d.path == p) then deps
  else deps ++ [⟨n, p⟩]

/-- Embedding of `cmd_unregister` (setup.py:822-835): filter out every
entry whose path is `p`; when nothing was removed the code reports
"Not found" and does not save (second component `false`), otherwise it
saves the filtered list (second component `true`). -/
def cmd_unregister (deps : List Dependent) (p : String) : List Dependent × Bool :=
  let filtered := deps.filter (fun d => !(d.path == p))
  if filtered.length == deps.length then (deps, false)
  else (filtered, true)

/-- Embedding of `cmd_list_dependents` (setup.py:838-854): one output line
per entry, carrying its name, path, and whether the path exists on disk
(`pathExists` models `Path.exists`). -/
def cmd_list_dependents (pathExists : String → Bool) (deps : List Dependent) :
    List (String × String × Bool) :=
  deps.map (fun d => (d.name, d.path, pathExists d.path))

/-- Per-dependent outcome of `cmd_update_all` (setup.py:872-886). -/
inductive Outcome where
  | ok
  | skippedNotFound
  | error (msg : String)
deriving DecidableEq

/-- What the `cmd_update_all` loop body reports for one dependent:
skipped when its path does not exist, otherwise ok unless syncing the
workflows raises (`updateRaises` models whether
`install_workflows`/`install_actions` raise, and with which message). -/
def outcomeFor (pathExists : String → Bool) (updateRaises : String → Option String)
    (d : Dependent) : String × Outcome :=
  (d.name,
    if !(pathExists d.path) then Outcome.skippedNotFound
    else match updateRaises d.path with
      | none => Outcome.ok
      | some e => Outcome.error e)

/-- Embedding of `cmd_update_all` (setup.py:857-894): every registered
dependent is processed in registry order, each independently yielding one
outcome; an exception for one dependent is caught in the loop body and the
loop continues. -/
def cmd_update_all (pathExists : String → Bool) (updateRaises : String → Option String)
    (deps : List Dependent) : List (String × Outcome) :=
  deps.map (outcomeFor pathExists updateRaises)

/-- Remove the association-list entries named `n`: the state of the
destination directory after `dest.unlink()` / `shutil.rmtree(dest)` at the
top of `create_symlink` and `copy_item` (setup.py:298-302, 315-319), which
delete any pre-existing file, symlink, or directory of that name. -/
def removeExisting (d : List (String × Entry)) (n : String) : List (String × Entry) :=
  d.filter (fun p => !(p.1 == n))

/-- Embedding of `create_symlink` (setup.py:296-310) on the destination
directory state: remove any existing entry named `n`, then create a fresh
symlink to the source item; the source item exists (it was just
enumerated), so the new link resolves. -/
def create_symlink (d : List (String × Entry)) (n : String) : List (String × Entry) :=
  removeExisting d n ++ [(n, Entry.symlink true)]

/-- Embedding of `copy_item` (setup.py:313-326) on the destination
directory state: remove any existing entry named `n`, then materialize a
copy of the source entry `srcE` (recursive for directories, metadata
preserving for files), observably identical to the source entry. -/
def copy_item (d : List (String × Entry)) (n : String) (srcE : Entry) :
    List (String × Entry) :=
  removeExisting d n ++ [(n, srcE)]

/-- One category of `cmd_install` (the shared shape of
`install_skills`/`install_commands`/`install_scripts`/`install_data_scripts`,
setup.py:329-391): `src` enumerates the source items matching the category
predicate in iteration order; each is symlinked or copied into the
destination directory state `d` according to `use_symlinks`. -/
def installCategory (use_symlinks : Bool) (src : List (String × Entry))
    (d : List (String × Entry)) : List (String × Entry) :=
  src.foldl
    (fun acc it =>
      if use_symlinks then create_symlink acc it.1 else copy_item acc it.1 it.2) d

/-- The entry stored under a name in a directory state, `none` if absent. -/
def lookupEntry (d : List (String × Entry)) (n : String) : Option Entry :=
  (d.find? (fun p => p.1 == n)).map (fun p => p.2)

/-- The last source item named `n` in enumeration order (a later source
item of the same name would overwrite an earlier one during install). -/
def findLastSrc : List (String × Entry) → String → Option Entry
  | [], _ => none
  | it :: rest, n =>
    match findLastSrc rest n with
    | some e => some e
    | none => if it.1 == n then some it.2 else none

/-! ### Helper lemmas -/

lemma filter_all_of_length_eq {α : Type} (f : α → Bool) :
    ∀ l : List α, (l.filter f).length = l.length → ∀ a ∈ l, f a = true := by
  intro l
  induction l with
  | nil => intro _ a ha; cases ha
  | cons x xs ih =>
    intro h a ha
    cases hx : f x with
    | false =>
      exfalso
      have hle : (List.filter f xs).length ≤ xs.length := List.length_filter_le f xs
      simp only [List.filter_cons, hx, if_false, Bool.false_eq_true,
        List.length_cons] at h
      omega
    | true =>
      simp only [List.filter_cons, hx, if_true, List.length_cons] at h
      have h2 : (List.filter f xs).length = xs.length := by omega
      rcases List.mem_cons.mp ha with rfl | hmem
      · exact hx
      · exact ih h2 a hmem

lemma unregister_fst_no_p (deps : List Dependent) (p : String) :
    ∀ d ∈ (cmd_unregister deps p).1, d.path ≠ p := by
  intro d hd
  unfold cmd_unregister at hd
  simp only at hd
  split at hd
  · rename_i hlen
    have hall := filter_all_of_length_eq (fun d => !(d.path == p)) deps (by
      simpa using hlen)
    have := hall d hd
    simpa using this
  · have := (List.mem_filter.mp hd).2
    simpa using this

lemma unregister_fst_keeps (deps : List Dependent) (p : String) :
    ∀ d ∈ deps, d.path ≠ p → d ∈ (cmd_unregister deps p).1 := by
  intro d hd hne
  unfold cmd_unregister
  simp only
  split
  · exact hd
  · exact List.mem_filter.mpr ⟨hd, by simpa using hne⟩

lemma unregister_fst_sublist (deps : List Dependent) (p : String) :
    ((cmd_unregister deps p).1).Sublist deps := by
  unfold cmd_unregister
  simp only
  split
  · exact List.Sublist.refl deps
  · exact List.filter_sublist deps

/-! ### C3 : environment detector -/

/-- C3: `detectMode` resolves the provisioning mode by the first matching
rule (flag, then CI environment signal, then Linux without
`FORCE_SYMLINKS`, else symlink); in particular a present CI environment
signal always yields Copy, on every platform. -/
theorem detectMode_follows_spec (f : Bool) (c : Option String) (p : String)
    (fs : Option String) :
    detectMode f c p fs = detectModeSpecModel f c p fs ∧
    (ciSignal c = true → detectMode f c p fs = ProvisioningMode.copy) := by
  constructor
  · simp only [detectMode, detectModeSpecModel, is_ci_mode, ciSignal]
    by_cases hf : f = true
    · simp [hf]
    · by_cases hc : (toLowerStr (c.getD "") == "true") = true
      · simp [hf, hc]
      · by_cases hl : (p == "Linux" && !(envTruthy fs)) = true
        · simp [hf, hc, hl]
        · simp [hf, hc, hl]
  · intro h
    simp only [ciSignal] at h
    simp only [detectMode, is_ci_mode]
    by_cases hf : f = true
    · simp [hf]
    · simp [hf, h]

/-- Witness for C3 at a concrete input: `CI=true` on a non-Linux platform
still gives Copy mode. -/
theorem detectMode_follows_spec_witness :
    ciSignal (some "true") = true ∧
    detectMode false (some "true") "Windows" none = ProvisioningMode.copy :=
  ⟨by decide, (detectMode_follows_spec false (some "true") "Windows" none).2 (by decide)⟩

/-! ### C9 : the placeholder predicate never misfires on non-files -/

/-- C9: `is_broken_symlink_file` is total and returns `false` on a missing
path, on any real symlink (resolving or dangling), on a directory, on a
regular file larger than 200 bytes, and on a file whose content cannot be
read or decoded. -/
theorem is_broken_symlink_file_guard :
    is_broken_symlink_file none = false ∧
    (∀ b, is_broken_symlink_file (some (Entry.symlink b)) = false) ∧
    is_broken_symlink_file (some Entry.dir) = false ∧
    (∀ s r c, 200 < s → is_broken_symlink_file (some (Entry.file s r c)) = false) ∧
    (∀ s c, is_broken_symlink_file (some (Entry.file s false c)) = false) := by
  refine ⟨rfl, fun b => rfl, rfl, ?_, ?_⟩
  · intro s r c h
    simp [is_broken_symlink_file, h]
  · intro s c
    simp only [is_broken_symlink_file]
    split
    · rfl
    · rfl

/-- Witness for C9: a 500-byte file full of path-like text is still not a
placeholder. -/
theorem is_broken_symlink_file_guard_witness :
    200 < 500 ∧ is_broken_symlink_file (some (Entry.file 500 true "../x")) = false :=
  ⟨by decide, is_broken_symlink_file_guard.2.2.2.1 500 true "../x" (by decide)⟩

/-! ### C10 : missing registry file behaves as empty registry -/

/-- C10: when the dependents file does not exist, `load_dependents` returns
the empty list, identical to loading an explicitly empty registry, so
`list-dependents` reports nothing, `unregister` reports not-found without
changing anything, and `update-all` has nothing to process. -/
theorem load_dependents_missing_file :
    load_dependents none = [] ∧
    load_dependents none = load_dependents (some []) ∧
    (∀ pe, cmd_list_dependents pe (load_dependents none) = []) ∧
    (∀ p, cmd_unregister (load_dependents none) p = ([], false)) ∧
    (∀ pe ur, cmd_update_all pe ur (load_dependents none) = []) :=
  ⟨rfl, rfl, fun _ => rfl, fun _ => rfl, fun _ _ => rfl⟩

/-! ### C6 : fan-out isolation in update-all -/

/-- C6: `cmd_update_all` yields exactly one outcome per registered
dependent, in registry order, each outcome depending only on that entry
(so one failure or missing path never suppresses later entries); with
three dependents of which only the second path is missing, the outcomes
are ok, skipped-not-found, ok. -/
theorem cmd_update_all_isolated (pe : String → Bool) (ur : String → Option String)
    (deps : List Dependent) :
    (cmd_update_all pe ur deps).length = deps.length ∧
    (∀ i (h : i < (cmd_update_all pe ur deps).length) (h2 : i < deps.length),
      (cmd_update_all pe ur deps).get ⟨i, h⟩ = outcomeFor pe ur (deps.get ⟨i, h2⟩)) ∧
    cmd_update_all (fun p => !(p == "/b")) (fun _ => none)
        [⟨"A", "/a"⟩, ⟨"B", "/b"⟩, ⟨"C", "/c"⟩] =
      [("A", Outcome.ok), ("B", Outcome.skippedNotFound), ("C", Outcome.ok)] := by
  refine ⟨by simp [cmd_update_all], ?_, by decide⟩
  intro i h h2
  simp [cmd_update_all]

/-- Witness for C6: the second of three dependents, whose path is missing,
is reported skipped-not-found. -/
theorem cmd_update_all_isolated_witness :
    (cmd_update_all (fun p => !(p == "/b")) (fun _ => none)
        [⟨"A", "/a"⟩, ⟨"B", "/b"⟩, ⟨"C", "/c"⟩]).get ⟨1, by decide⟩ =
      ("B", Outcome.skippedNotFound) := by
  have h := (cmd_update_all_isolated (fun p => !(p == "/b")) (fun _ => none)
    [⟨"A", "/a"⟩, ⟨"B", "/b"⟩, ⟨"C", "/c"⟩]).2.1 1 (by decide) (by decide)
  rw [h]
  decide

/-! ### C7 : registry round-trip -/

/-- Counterexample to C7 as stated: when the path is already registered
under another name, `register` is a no-op, so the registry does not
contain `{name := n, path := p}` afterwards. -/
theorem register_roundtrip_counterexample :
    register [⟨"X", "/a"⟩] "/a" "Y" = [⟨"X", "/a"⟩] ∧
    ¬((⟨"Y", "/a"⟩ : Dependent) ∈ register [⟨"X", "/a"⟩] "/a" "Y") := by
  constructor
  · decide
  · decide

/-- C7 (amended): after `register p n` on a registry with no entry of path
`p`, the registry contains `{name := n, path := p}`; after unregister no
entry with path `p` remains; registering an already-present path is a
no-op leaving the registry unchanged. -/
theorem register_unregister_roundtrip (deps : List Dependent) (p n : String) :
    ((∀ d ∈ deps, d.path ≠ p) → (⟨n, p⟩ : Dependent) ∈ register deps p n) ∧
    (∀ d ∈ (cmd_unregister deps p).1, d.path ≠ p) ∧
    ((∃ d ∈ deps, d.path = p) → register deps p n = deps) := by
  refine ⟨?_, unregister_fst_no_p deps p, ?_⟩
  · intro hall
    have hany : deps.any (fun d => d.path == p) = false := by
      simp only [List.any_eq_false]
      intro d hd
      simpa using hall d hd
    simp [register, hany]
  · rintro ⟨d, hd, hp⟩
    have hany : deps.any (fun d => d.path == p) = true :=
      List.any_eq_true.mpr ⟨d, hd, by simpa using hp⟩
    simp [register, hany]

/-- Witness for C7 (amended) at concrete registries: a fresh path is
appended with the given name, and re-registering an existing path leaves
the registry untouched. -/
theorem register_unregister_roundtrip_witness :
    (⟨"proj", "/p"⟩ : Dependent) ∈ register [] "/p" "proj" ∧
    register [⟨"old", "/p"⟩] "/p" "new" = [⟨"old", "/p"⟩] :=
  ⟨(register_unregister_roundtrip [] "/p" "proj").1 (by intro d hd; cases hd),
   (register_unregister_roundtrip [⟨"old", "/p"⟩] "/p" "new").2.2
     ⟨⟨"old", "/p"⟩, by simp, rfl⟩⟩

/-! ### C8 : unregister removes every matching entry -/

/-- C8: `cmd_unregister` removes every entry whose path is `p` — including
duplicates that crept into the persisted file — and keeps all entries with
other paths, in their original order. -/
theorem unregister_removes_all (deps : List Dependent) (p : String) :
    (∀ d ∈ (cmd_unregister deps p).1, d.path ≠ p) ∧
    (∀ d ∈ deps, d.path ≠ p → d ∈ (cmd_unregister deps p).1) ∧
    ((cmd_unregister deps p).1).Sublist deps :=
  ⟨unregister_fst_no_p deps p, unregister_fst_keeps deps p,
    unregister_fst_sublist deps p⟩

/-- Witness for C8 on a registry holding two duplicate entries for the
same path: both disappear, the other entry survives. -/
theorem unregister_removes_all_witness :
    ¬((⟨"A", "/p"⟩ : Dependent) ∈
        (cmd_unregister [⟨"A", "/p"⟩, ⟨"B", "/q"⟩, ⟨"A2", "/p"⟩] "/p").1) ∧
    (⟨"B", "/q"⟩ : Dependent) ∈
      (cmd_unregister [⟨"A", "/p"⟩, ⟨"B", "/q"⟩, ⟨"A2", "/p"⟩] "/p").1 := by
  constructor
  · intro hmem
    exact (unregister_removes_all [⟨"A", "/p"⟩, ⟨"B", "/q"⟩, ⟨"A2", "/p"⟩] "/p").1
      ⟨"A", "/p"⟩ hmem rfl
  · exact (unregister_removes_all [⟨"A", "/p"⟩, ⟨"B", "/q"⟩, ⟨"A2", "/p"⟩] "/p").2.1
      ⟨"B", "/q"⟩ (by simp) (by decide)

/-! ### C2 : install idempotence -/

lemma find_removeExisting_ne (d : List (String × Entry)) (m n : String)
    (h : ¬(m = n)) :
    (removeExisting d m).find? (fun p => p.1 == n) = d.find? (fun p => p.1 == n) := by
  induction d with
  | nil => rfl
  | cons q d ih =>
    simp only [removeExisting, List.filter_cons] at *
    cases hq : q.1 == m with
    | true =>
      have hqm : q.1 = m := by simpa using hq
      have hqn : (q.1 == n) = false := by
        simp [hqm]
        exact h
      simp only [hq, Bool.not_true, if_false, Bool.false_eq_true, List.find?_cons, hqn]
      exact ih
    | false =>
      simp only [hq, Bool.not_false, if_true, List.find?_cons]
      cases hn : q.1 == n with
      | true => rfl
      | false => exact ih

lemma lookupEntry_step (d : List (String × Entry)) (m : String) (v : Entry)
    (n : String) :
    lookupEntry (removeExisting d m ++ [(m, v)]) n =
      if m = n then some v else lookupEntry d n := by
  by_cases h : m = n
  · subst h
    have hnone : (removeExisting d m).find? (fun p => p.1 == m) = none := by
      rw [List.find?_eq_none]
      intro x hx
      have := (List.mem_filter.mp hx).2
      simpa using this
    simp [lookupEntry, List.find?_append, hnone]
  · have hm : ((m, v).1 == n) = false := by simpa using h
    simp only [lookupEntry, List.find?_append, find_removeExisting_ne d m n h,
      if_neg h]
    cases hd : d.find? (fun p => p.1 == n) with
    | some q => rfl
    | none => simp [List.find?_cons, hm]

lemma installCategory_cons (u : Bool) (it : String × Entry)
    (rest : List (String × Entry)) (d : List (String × Entry)) :
    installCategory u (it :: rest) d =
      installCategory u rest
        (removeExisting d it.1 ++ [(it.1, if u then Entry.symlink true else it.2)]) := by
  cases u with
  | true => rfl
  | false => rfl

lemma lookupEntry_installCategory (u : Bool) (src d : List (String × Entry))
    (n : String) :
    lookupEntry (installCategory u src d) n =
      match findLastSrc src n with
      | some e => some (if u then Entry.symlink true else e)
      | none => lookupEntry d n := by
  induction src generalizing d with
  | nil => rfl
  | cons it rest ih =>
    rw [installCategory_cons, ih]
    cases hf : findLastSrc rest n with
    | some e => simp [findLastSrc, hf]
    | none =>
      simp only [findLastSrc, hf, lookupEntry_step]
      cases hn : it.1 == n with
      | true =>
        have : it.1 = n := by simpa using hn
        simp [this]
      | false =>
        have : ¬(it.1 = n) := by simpa using hn
        simp [this]

/-- C2: installing a category twice with the same source, destination, and
mode leaves the destination directory state of the second run identical to
that of the first (every name maps to the same entry), because each item
install removes any same-named pre-existing file, symlink, or directory
and recreates it from the source. -/
theorem installCategory_idempotent (u : Bool) (src d : List (String × Entry))
    (n : String) :
    lookupEntry (installCategory u src (installCategory u src d)) n =
      lookupEntry (installCategory u src d) n := by
  cases hf : findLastSrc src n with
  | some e => simp [lookupEntry_installCategory, hf]
  | none => simp [lookupEntry_installCategory, hf]

/-! ### C4 : the TextPlaceholder classification -/

lemma is_broken_file_true_iff (s : Nat) (r : Bool) (c : String) :
    is_broken_symlink_file (some (Entry.file s r c)) = true ↔
      s ≤ 200 ∧ r = true ∧
        (containsSub (stripStr c) ".StoryTree/" ||
          containsSub (stripStr c) "../") = true := by
  simp only [is_broken_symlink_file]
  by_cases hs : s > 200
  · simp only [hs, if_true]
    constructor
    · intro h; cases h
    · rintro ⟨h1, -, -⟩; omega
  · have hs2 : s ≤ 200 := by omega
    simp only [hs, if_false, hs2, true_and]
    cases r with
    | true => simp
    | false => simp

/-- C4: an item is classified `TextPlaceholder` (`text_files`) exactly when
it is not a real symlink but a regular readable file of at most 200 bytes
whose stripped content contains `.StoryTree/` or `../`; in particular the
40-byte non-symlink file `C` containing `../../.source/commands/C.md` is so
classified. -/
theorem classifyItem_textPlaceholder_iff (expected : List String) (n : String)
    (e : Entry) :
    (classifyItem expected n e = ItemState.textFile ↔
      ∃ s c, e = Entry.file s true c ∧ s ≤ 200 ∧
        (containsSub (stripStr c) ".StoryTree/" ||
          containsSub (stripStr c) "../") = true) ∧
    classifyItem [] "C" (Entry.file 40 true "../../.source/commands/C.md") =
      ItemState.textFile := by
  constructor
  · cases e with
    | symlink r =>
      cases r with
      | true => simp [classifyItem]
      | false => simp [classifyItem]
    | dir =>
      simp only [classifyItem, is_broken_symlink_file, if_false, Bool.false_eq_true]
      constructor
      · intro h
        split at h
        · cases h
        · cases h
      · rintro ⟨s, c, heq, -, -⟩
        cases heq
    | file s r c =>
      cases hb : is_broken_symlink_file (some (Entry.file s r c)) with
      | true =>
        obtain ⟨h1, h2, h3⟩ := (is_broken_file_true_iff s r c).mp hb
        subst h2
        simp only [classifyItem, hb, if_true]
        constructor
        · intro _
          exact ⟨s, c, rfl, h1, h3⟩
        · intro _
          trivial
      | false =>
        simp only [classifyItem, hb, Bool.false_eq_true, if_false]
        constructor
        · intro h
          split at h
          · cases h
          · cases h
        · rintro ⟨s2, c2, heq, h1, h3⟩
          injection heq with hs hr hc
          subst hs; subst hr; subst hc
          rw [(is_broken_file_true_iff s true c).mpr ⟨h1, rfl, h3⟩] at hb
          cases hb
  · decide

/-! ### C5 : git configuration reconciliation -/

lemma find_cons_key_false (q : String × String) (l : List (String × String))
    (k : String) (hq : (q.1 == k) = false) :
    List.find? (fun x => x.1 == k) (q :: l) = List.find? (fun x => x.1 == k) l := by
  rw [List.find?_cons]
  simp [hq]

lemma find_cons_key_true (q : String × String) (l : List (String × String))
    (k : String) (hq : (q.1 == k) = true) :
    List.find? (fun x => x.1 == k) (q :: l) = some q := by
  rw [List.find?_cons]
  simp [hq]

lemma getRaw_setLocal_same (cfg : List (String × String)) (k v : String) :
    getRaw (setLocal cfg k v) k = some v := by
  induction cfg with
  | nil =>
    simp only [setLocal, List.filter_nil, List.nil_append, getRaw]
    rw [find_cons_key_true _ _ _ (by simp)]
    rfl
  | cons q cfg ih =>
    simp only [setLocal, List.filter_cons] at ih ⊢
    cases hq : q.1 == k with
    | true => simpa [hq] using ih
    | false =>
      simp only [hq, Bool.not_false, if_true, List.cons_append, getRaw] at ih ⊢
      rw [find_cons_key_false _ _ _ hq]
      exact ih

lemma getRaw_setLocal_ne (cfg : List (String × String)) (k k2 v : String)
    (h : ¬(k = k2)) :
    getRaw (setLocal cfg k v) k2 = getRaw cfg k2 := by
  induction cfg with
  | nil =>
    have hk : ((k, v).1 == k2) = false := by simpa using h
    simp only [setLocal, List.filter_nil, List.nil_append, getRaw]
    rw [find_cons_key_false _ _ _ hk]
  | cons q cfg ih =>
    simp only [setLocal, List.filter_cons] at ih ⊢
    cases hq : q.1 == k with
    | true =>
      have hqk : q.1 = k := by simpa using hq
      have hq2 : (q.1 == k2) = false := by
        simp only [hqk]
        simpa using h
      simp only [hq, Bool.not_true, if_false, Bool.false_eq_true]
      conv_rhs => rw [getRaw, find_cons_key_false _ _ _ hq2]
      exact ih
    | false =>
      simp only [hq, Bool.not_false, if_true, List.cons_append, getRaw] at ih ⊢
      cases hq2 : q.1 == k2 with
      | true =>
        rw [find_cons_key_true _ _ _ hq2, find_cons_key_true _ _ _ hq2]
      | false =>
        rw [find_cons_key_false _ _ _ hq2, find_cons_key_false _ _ _ hq2]
        exact ih

lemma cgfs_flags (st : GitState) :
    (configure_git_for_symlinks st).1.isRepo = st.isRepo ∧
    (configure_git_for_symlinks st).1.gitFound = st.gitFound := by
  simp only [configure_git_for_symlinks]
  split_ifs <;> simp

lemma csr_flags (st : GitState) :
    (configure_submodule_recurse st).1.isRepo = st.isRepo ∧
    (configure_submodule_recurse st).1.gitFound = st.gitFound := by
  simp only [configure_submodule_recurse]
  split_ifs <;> simp

lemma cgfs_read_true (st : GitState) (h1 : st.isRepo = true) (h2 : st.gitFound = true) :
    readLocal (configure_git_for_symlinks st).1.config "core.symlinks" = "true" := by
  have htrue : toLowerStr (stripStr "true") = "true" := by decide
  simp only [configure_git_for_symlinks, h1, h2, Bool.not_true, Bool.false_eq_true,
    if_false]
  cases hr : readLocal st.config "core.symlinks" == "true" with
  | true =>
    simp only [hr, if_true]
    simpa using hr
  | false =>
    simp only [hr, Bool.false_eq_true, if_false]
    simpa [readLocal, getRaw_setLocal_same] using htrue

lemma csr_read_true (st : GitState) (h1 : st.isRepo = true) (h2 : st.gitFound = true) :
    readLocal (configure_submodule_recurse st).1.config "submodule.recurse" = "true" := by
  have htrue : toLowerStr (stripStr "true") = "true" := by decide
  simp only [configure_submodule_recurse, h1, h2, Bool.not_true, Bool.false_eq_true,
    if_false]
  cases hr : readLocal st.config "submodule.recurse" == "true" with
  | true =>
    simp only [hr, if_true]
    simpa using hr
  | false =>
    simp only [hr, Bool.false_eq_true, if_false]
    simpa [readLocal, getRaw_setLocal_same] using htrue

lemma csr_preserves_core (st : GitState) :
    readLocal (configure_submodule_recurse st).1.config "core.symlinks" =
      readLocal st.config "core.symlinks" := by
  simp only [configure_submodule_recurse]
  split_ifs
  · rfl
  · rfl
  · rfl
  · simp only [readLocal]
    rw [getRaw_setLocal_ne]
    decide

lemma cgfs_of_read_true (st : GitState)
    (h : readLocal st.config "core.symlinks" = "true") :
    configure_git_for_symlinks st = (st, false) := by
  simp only [configure_git_for_symlinks]
  split_ifs with ha hb hc
  · rfl
  · rfl
  · rfl
  · exact absurd (by simpa using h) hc

lemma csr_of_read_true (st : GitState)
    (h : readLocal st.config "submodule.recurse" = "true") :
    configure_submodule_recurse st = (st, false) := by
  simp only [configure_submodule_recurse]
  split_ifs with ha hb hc
  · rfl
  · rfl
  · rfl
  · exact absurd (by simpa using h) hc

/-- Counterexample to C5 as stated: with the raw local value `"TRUE"` —
which is not exactly the string `"true"` — the reconciler changes nothing
and reports `symlinksChanged = false`, because it compares the value after
lowercasing. -/
theorem reconcile_counterexample :
    getRaw [("core.symlinks", "TRUE")] "core.symlinks" = some "TRUE" ∧
    ¬("TRUE" = "true") ∧
    (configure_git_for_symlinks ⟨true, true, [("core.symlinks", "TRUE")]⟩).2 = false ∧
    (configure_git_for_symlinks ⟨true, true, [("core.symlinks", "TRUE")]⟩).1 =
      ⟨true, true, [("core.symlinks", "TRUE")]⟩ := by
  refine ⟨by decide, by decide, by decide, by decide⟩

/-- C5 (amended): on a git repository with git available, each of the two
settings is reconciled by the stripped-and-lowercased value of the local
entry: if that reads `"true"` nothing changes and no change is reported;
otherwise the setting is set to `"true"` and a change is reported; hence a
second reconcile run always reports no change for both settings. -/
theorem reconcile_idempotent (st : GitState) (h1 : st.isRepo = true)
    (h2 : st.gitFound = true) :
    (readLocal st.config "core.symlinks" = "true" →
      configure_git_for_symlinks st = (st, false)) ∧
    (readLocal st.config "core.symlinks" ≠ "true" →
      (configure_git_for_symlinks st).2 = true ∧
      readLocal (configure_git_for_symlinks st).1.config "core.symlinks" = "true") ∧
    (readLocal st.config "submodule.recurse" = "true" →
      configure_submodule_recurse st = (st, false)) ∧
    (readLocal st.config "submodule.recurse" ≠ "true" →
      (configure_submodule_recurse st).2 = true ∧
      readLocal (configure_submodule_recurse st).1.config "submodule.recurse" = "true") ∧
    (reconcile (reconcile st).1).2.1 = false ∧
    (reconcile (reconcile st).1).2.2 = false := by
  have hcg := cgfs_flags st
  have hst1 : (reconcile st).1 = (configure_submodule_recurse
      (configure_git_for_symlinks st).1).1 := rfl
  have hrepo1 : (reconcile st).1.isRepo = true := by
    rw [hst1, (csr_flags _).1, hcg.1, h1]
  have hgit1 : (reconcile st).1.gitFound = true := by
    rw [hst1, (csr_flags _).2, hcg.2, h2]
  have hcore1 : readLocal (reconcile st).1.config "core.symlinks" = "true" := by
    rw [hst1, csr_preserves_core]
    exact cgfs_read_true st h1 h2
  have hrec1 : readLocal (reconcile st).1.config "submodule.recurse" = "true" := by
    rw [hst1]
    exact csr_read_true _ (by rw [hcg.1, h1]) (by rw [hcg.2, h2])
  refine ⟨cgfs_of_read_true st, ?_, csr_of_read_true st, ?_, ?_, ?_⟩
  · intro hne
    have hbe : (readLocal st.config "core.symlinks" == "true") = false := by
      simpa using hne
    constructor
    · simp [configure_git_for_symlinks, h1, h2, hbe]
    · exact cgfs_read_true st h1 h2
  · intro hne
    have hbe : (readLocal st.config "submodule.recurse" == "true") = false := by
      simpa using hne
    constructor
    · simp [configure_submodule_recurse, h1, h2, hbe]
    · exact csr_read_true st h1 h2
  · have hg : configure_git_for_symlinks (reconcile st).1 = ((reconcile st).1, false) :=
      cgfs_of_read_true _ hcore1
    show (configure_git_for_symlinks (reconcile st).1).2 = false
    rw [hg]
  · have hg : configure_git_for_symlinks (reconcile st).1 = ((reconcile st).1, false) :=
      cgfs_of_read_true _ hcore1
    have hs : configure_submodule_recurse (reconcile st).1 = ((reconcile st).1, false) :=
      csr_of_read_true _ hrec1
    show (configure_submodule_recurse
      (configure_git_for_symlinks (reconcile st).1).1).2 = false
    rw [hg]
    exact congrArg Prod.snd hs

/-- Witness for C5 (amended): starting from an empty local config, the
first run sets both settings and the second run reports no change. -/
theorem reconcile_idempotent_witness :
    (configure_git_for_symlinks ⟨true, true, []⟩).2 = true ∧
    (reconcile (reconcile ⟨true, true, []⟩).1).2.1 = false ∧
    (reconcile (reconcile ⟨true, true, []⟩).1).2.2 = false :=
  ⟨((reconcile_idempotent ⟨true, true, []⟩ rfl rfl).2.1 (by decide)).1,
   (reconcile_idempotent ⟨true, true, []⟩ rfl rfl).2.2.2.2.1,
   (reconcile_idempotent ⟨true, true, []⟩ rfl rfl).2.2.2.2.2⟩

/-! ### C1 : the five states of the health analyzer -/

lemma mem_filterMap_fst (items : List (String × Entry)) (f : String × Entry → Bool)
    (n : String) :
    (n ∈ (items.filter f).map (fun p => p.1)) ↔
      ∃ e, (n, e) ∈ items ∧ f (n, e) = true := by
  constructor
  · intro h
    obtain ⟨⟨a, e⟩, hq, rfl⟩ := List.mem_map.mp h
    obtain ⟨hmem, hf⟩ := List.mem_filter.mp hq
    exact ⟨e, hmem, hf⟩
  · rintro ⟨e, hmem, hf⟩
    exact List.mem_map.mpr ⟨(n, e), List.mem_filter.mpr ⟨hmem, hf⟩, rfl⟩

lemma mem_state_list (expected : List String) (items : List (String × Entry))
    (n : String) (st : ItemState) :
    (n ∈ (items.filter (fun p => classifyItem expected p.1 p.2 == st)).map
        (fun p => p.1)) ↔
      ∃ e, (n, e) ∈ items ∧ classifyItem expected n e = st := by
  rw [mem_filterMap_fst]
  constructor
  · rintro ⟨e, hm, hf⟩
    exact ⟨e, hm, by simpa using hf⟩
  · rintro ⟨e, hm, hf⟩
    exact ⟨e, hm, by simpa using hf⟩

lemma keys_nodup_unique : ∀ (items : List (String × Entry)),
    (items.map Prod.fst).Nodup →
    ∀ n e e2, (n, e) ∈ items → (n, e2) ∈ items → e = e2 := by
  intro items
  induction items with
  | nil => intro _ n e e2 h1 _; cases h1
  | cons q rest ih =>
    intro hd n e e2 h1 h2
    simp only [List.map_cons, List.nodup_cons] at hd
    rcases List.mem_cons.mp h1 with h1e | h1m
    · rcases List.mem_cons.mp h2 with h2e | h2m
      · have heq : (n, e) = ((n, e2) : String × Entry) := h1e.trans h2e.symm
        injection heq with _ he
      · exfalso
        apply hd.1
        have hq1 : q.1 = n := by rw [← h1e]
        rw [hq1]
        exact List.mem_map.mpr ⟨(n, e2), h2m, rfl⟩
    · rcases List.mem_cons.mp h2 with h2e | h2m
      · exfalso
        apply hd.1
        have hq1 : q.1 = n := by rw [← h2e]
        rw [hq1]
        exact List.mem_map.mpr ⟨(n, e), h1m, rfl⟩
      · exact ih hd.2 n e e2 h1m h2m

lemma diagnose_valid_def (expected : List String) (items : List (String × Entry)) :
    (diagnoseCategory expected (some items)).valid =
      (items.filter (fun p => classifyItem expected p.1 p.2 == ItemState.valid)).map
        (fun p => p.1) := rfl

lemma diagnose_broken_def (expected : List String) (items : List (String × Entry)) :
    (diagnoseCategory expected (some items)).broken =
      (items.filter (fun p => classifyItem expected p.1 p.2 == ItemState.broken)).map
        (fun p => p.1) := rfl

lemma diagnose_text_def (expected : List String) (items : List (String × Entry)) :
    (diagnoseCategory expected (some items)).text_files =
      (items.filter (fun p => classifyItem expected p.1 p.2 == ItemState.textFile)).map
        (fun p => p.1) := rfl

lemma diagnose_extra_def (expected : List String) (items : List (String × Entry)) :
    (diagnoseCategory expected (some items)).extra =
      (items.filter (fun p => classifyItem expected p.1 p.2 == ItemState.extra)).map
        (fun p => p.1) := rfl

lemma diagnose_missing_mem (expected : List String) (items : List (String × Entry))
    (n : String) :
    (n ∈ (diagnoseCategory expected (some items)).missing ↔
      n ∈ expected ∧
        ¬(n ∈ (diagnoseCategory expected (some items)).valid ∨
          n ∈ (diagnoseCategory expected (some items)).broken ∨
          n ∈ (diagnoseCategory expected (some items)).text_files ∨
          n ∈ (diagnoseCategory expected (some items)).extra)) := by
  have hdef : (diagnoseCategory expected (some items)).missing =
      expected.filter (fun m =>
        !(((diagnoseCategory expected (some items)).valid ++
            (diagnoseCategory expected (some items)).broken ++
            (diagnoseCategory expected (some items)).text_files ++
            (diagnoseCategory expected (some items)).extra).contains m)) := rfl
  rw [hdef, List.mem_filter]
  constructor
  · rintro ⟨h1, h2⟩
    refine ⟨h1, ?_⟩
    intro hmem
    have : n ∈ (diagnoseCategory expected (some items)).valid ++
        (diagnoseCategory expected (some items)).broken ++
        (diagnoseCategory expected (some items)).text_files ++
        (diagnoseCategory expected (some items)).extra := by
      simp only [List.mem_append]
      tauto
    rw [← List.elem_iff] at this
    simp [this] at h2
    tauto
  · rintro ⟨h1, h2⟩
    refine ⟨h1, ?_⟩
    have : ¬(n ∈ (diagnoseCategory expected (some items)).valid ++
        (diagnoseCategory expected (some items)).broken ++
        (diagnoseCategory expected (some items)).text_files ++
        (diagnoseCategory expected (some items)).extra) := by
      simp only [List.mem_append]
      tauto
    rw [← List.elem_iff] at this
    simpa using this

lemma mem_state_unique (expected : List String) (items : List (String × Entry))
    (hd : (items.map Prod.fst).Nodup) (n : String) (e0 : Entry)
    (he0 : (n, e0) ∈ items) (st : ItemState) :
    (n ∈ (items.filter (fun p => classifyItem expected p.1 p.2 == st)).map
        (fun p => p.1)) ↔
      classifyItem expected n e0 = st := by
  rw [mem_state_list]
  constructor
  · rintro ⟨e, he, hc⟩
    rw [keys_nodup_unique items hd n e e0 he he0] at hc
    exact hc
  · intro hc
    exact ⟨e0, he0, hc⟩

/-- Counterexample to C1 as stated: a name present at the target that is
neither a symlink, nor a text placeholder, nor expected (here an ordinary
unexpected file) is placed in none of the five sets, so the five sets do
not cover (expected source names) ∪ (names present at target). -/
theorem diagnose_cover_counterexample :
    (("stray", Entry.file 5 true "hello") ∈ [("stray", Entry.file 5 true "hello")]) ∧
    inCount (diagnoseCategory [] (some [("stray", Entry.file 5 true "hello")])) "stray"
      = 0 := by
  constructor
  · simp
  · decide

/-- C1 (amended): for every target state the five sets returned by the
analyzer are pairwise disjoint, and they cover exactly the names that are
expected from the source or classified at the destination (symlinks, text
placeholders, or expected names): each such name lies in exactly one set,
an unexpected unclassified destination name lies in none, and when the
destination directory is absent every expected name is exactly in
`missing`. -/
theorem diagnoseCategory_partition (expected : List String)
    (items : List (String × Entry)) (hd : (items.map Prod.fst).Nodup) (n : String) :
    ((n ∈ expected ∨
        ∃ e, (n, e) ∈ items ∧ classifyItem expected n e ≠ ItemState.ignored) →
      inCount (diagnoseCategory expected (some items)) n = 1) ∧
    ((n ∉ expected ∧ ∀ e, (n, e) ∈ items → classifyItem expected n e = ItemState.ignored) →
      inCount (diagnoseCategory expected (some items)) n = 0) ∧
    (∀ m, inCount (diagnoseCategory expected none) m = if m ∈ expected then 1 else 0) := by
  have hnone : ∀ m, inCount (diagnoseCategory expected none) m =
      if m ∈ expected then 1 else 0 := by
    intro m
    have hdef : diagnoseCategory expected none = ⟨[], [], [], expected, []⟩ := rfl
    rw [hdef]
    by_cases hm : m ∈ expected
    · simp [inCount, hm]
    · simp [inCount, hm]
  have hm := diagnose_missing_mem expected items n
  by_cases hex : ∃ e, (n, e) ∈ items
  · obtain ⟨e0, he0⟩ := hex
    have hv2 : n ∈ (diagnoseCategory expected (some items)).valid ↔
        classifyItem expected n e0 = ItemState.valid := by
      rw [diagnose_valid_def]
      exact mem_state_unique expected items hd n e0 he0 ItemState.valid
    have hb2 : n ∈ (diagnoseCategory expected (some items)).broken ↔
        classifyItem expected n e0 = ItemState.broken := by
      rw [diagnose_broken_def]
      exact mem_state_unique expected items hd n e0 he0 ItemState.broken
    have ht2 : n ∈ (diagnoseCategory expected (some items)).text_files ↔
        classifyItem expected n e0 = ItemState.textFile := by
      rw [diagnose_text_def]
      exact mem_state_unique expected items hd n e0 he0 ItemState.textFile
    have hx2 : n ∈ (diagnoseCategory expected (some items)).extra ↔
        classifyItem expected n e0 = ItemState.extra := by
      rw [diagnose_extra_def]
      exact mem_state_unique expected items hd n e0 he0 ItemState.extra
    have hm2 : n ∈ (diagnoseCategory expected (some items)).missing ↔
        n ∈ expected ∧ classifyItem expected n e0 = ItemState.ignored := by
      rw [hm, hv2, hb2, ht2, hx2]
      cases hcl : classifyItem expected n e0 <;> simp
    cases hcl : classifyItem expected n e0 with
    | valid =>
      refine ⟨fun _ => ?_, fun hcon => ?_, hnone⟩
      · simp [inCount, hv2, hb2, ht2, hx2, hm2, hcl]
      · have h2 := hcon.2 e0 he0
        rw [hcl] at h2
        exact ItemState.noConfusion h2
    | broken =>
      refine ⟨fun _ => ?_, fun hcon => ?_, hnone⟩
      · simp [inCount, hv2, hb2, ht2, hx2, hm2, hcl]
      · have h2 := hcon.2 e0 he0
        rw [hcl] at h2
        exact ItemState.noConfusion h2
    | textFile =>
      refine ⟨fun _ => ?_, fun hcon => ?_, hnone⟩
      · simp [inCount, hv2, hb2, ht2, hx2, hm2, hcl]
      · have h2 := hcon.2 e0 he0
        rw [hcl] at h2
        exact ItemState.noConfusion h2
    | extra =>
      refine ⟨fun _ => ?_, fun hcon => ?_, hnone⟩
      · simp [inCount, hv2, hb2, ht2, hx2, hm2, hcl]
      · have h2 := hcon.2 e0 he0
        rw [hcl] at h2
        exact ItemState.noConfusion h2
    | ignored =>
      refine ⟨fun hcond => ?_, fun hcon => ?_, hnone⟩
      · rcases hcond with hexp | ⟨e, he, hne⟩
        · simp [inCount, hv2, hb2, ht2, hx2, hm2, hcl, hexp]
        · rw [keys_nodup_unique items hd n e e0 he he0] at hne
          exact absurd hcl hne
      · simp [inCount, hv2, hb2, ht2, hx2, hm2, hcl, hcon.1]
  · have f1 : n ∉ (diagnoseCategory expected (some items)).valid := by
      intro hmem
      rw [diagnose_valid_def, mem_state_list] at hmem
      obtain ⟨e, he, -⟩ := hmem
      exact hex ⟨e, he⟩
    have f2 : n ∉ (diagnoseCategory expected (some items)).broken := by
      intro hmem
      rw [diagnose_broken_def, mem_state_list] at hmem
      obtain ⟨e, he, -⟩ := hmem
      exact hex ⟨e, he⟩
    have f3 : n ∉ (diagnoseCategory expected (some items)).text_files := by
      intro hmem
      rw [diagnose_text_def, mem_state_list] at hmem
      obtain ⟨e, he, -⟩ := hmem
      exact hex ⟨e, he⟩
    have f5 : n ∉ (diagnoseCategory expected (some items)).extra := by
      intro hmem
      rw [diagnose_extra_def, mem_state_list] at hmem
      obtain ⟨e, he, -⟩ := hmem
      exact hex ⟨e, he⟩
    have hm3 : n ∈ (diagnoseCategory expected (some items)).missing ↔ n ∈ expected := by
      rw [hm]
      constructor
      · exact fun h => h.1
      · intro h
        exact ⟨h, by tauto⟩
    refine ⟨fun hcond => ?_, fun hcon => ?_, hnone⟩
    · rcases hcond with hexp | ⟨e, he, -⟩
      · have f4 : n ∈ (diagnoseCategory expected (some items)).missing := hm3.mpr hexp
        simp [inCount, f1, f2, f3, f4, f5]
      · exact absurd ⟨e, he⟩ hex
    · have f4 : n ∉ (diagnoseCategory expected (some items)).missing := fun hmem =>
        hcon.1 (hm3.mp hmem)
      simp [inCount, f1, f2, f3, f4, f5]

/-- Witness for C1 (amended): with source `{A}` and a valid symlink `A` at
the destination, `A` is counted exactly once, and an absent unrelated name
`Z` is in no set. -/
theorem diagnoseCategory_partition_witness :
    inCount (diagnoseCategory ["A"] (some [("A", Entry.symlink true)])) "A" = 1 ∧
    inCount (diagnoseCategory ["A"] (some [("A", Entry.symlink true)])) "Z" = 0 := by
  constructor
  · exact (diagnoseCategory_partition ["A"] [("A", Entry.symlink true)] (by simp) "A").1
      (Or.inl (by simp))
  · refine (diagnoseCategory_partition ["A"] [("A", Entry.symlink true)] (by simp) "Z").2.1
      ⟨by simp, ?_⟩
    intro e he
    simp at he

end StoryTree
